import Mathlib

/-!
Shallow embedding of the telesales WhatsApp campaign generator
(`src/app.py`): the record-selection pipeline and history-reconciliation
engine of `compute_outputs`, together with the ledger loader
`load_history_df`.  UI glue, file encoding and zip packaging are out of
scope, as are the pandas CSV readers (their per-cell parse results are
modelled as already-applied `Option` values on raw rows).
-/

/-- Calendar dates are modelled as day numbers (`Int`): Python
`timedelta(days = n)` is `+ n` and date comparison is integer comparison.
This is faithful because the source only compares, orders and shifts
dates. -/
abbrev Date := Int

/-- Models Python `date.isoformat()` (equivalently `str(date)`): like the
ISO `YYYY-MM-DD` rendering, `Int.repr` is injective and never empty,
which is all the source relies on. -/
def dateStr (d : Date) : String := Int.repr d

/-- Models Python `str.strip()` / pandas `.str.strip()`: remove leading
and trailing whitespace. -/
def py_strip (s : String) : String :=
  ⟨((s.data.dropWhile Char.isWhitespace).reverse.dropWhile Char.isWhitespace).reverse⟩

/-- Models Python `str.lower()` / pandas `.str.lower()`. -/
def py_lower (s : String) : String := ⟨s.data.map Char.toLower⟩

/-- Models pandas `.str.startswith(pre)`. -/
def starts_with (s pre : String) : Bool := pre.data.isPrefixOf s.data

/-- Source `normalize_digits` (src/app.py:44): keep only digit
characters of the string form of the value (missing values are modelled
as the empty string upstream). -/
def normalize_digits (s : String) : String := ⟨s.data.filter Char.isDigit⟩

/-- Models the Python slice `s[-n:]` used for `phone_10`
(src/app.py:152): the last `n` characters, or the whole string when it is
shorter. -/
def take_last (s : String) (n : Nat) : String := ⟨s.data.drop (s.data.length - n)⟩

/-- Source `first_name` (src/app.py:50): strip, split on whitespace,
first token or empty.  The first token of Python `str.split()` is the
run of non-whitespace characters after the leading whitespace. -/
def first_name (s : String) : String :=
  ⟨(s.data.dropWhile Char.isWhitespace).takeWhile (fun c => !c.isWhitespace)⟩

/-- Source `ALLOWED_WRAPUPS` (src/app.py:20). -/
def ALLOWED_WRAPUPS : List String :=
  ["call back", "reject the call", "i dont need money", "i don\x27t need money"]

/-- One row of the Genesys export, after the `dtype=str` read: the six
required columns (`inin-outbound-id`, `borrower_id`, `full_name`,
`phone`, `CallRecordLastResult-phone`, `CallRecordLastAgentWrapup-phone`),
with missing cells as `""` (the source applies `fillna("")`). -/
structure InputRecord where
  inin_outbound_id : String
  borrower_id : String
  full_name : String
  phone : String
  last_result : String
  last_wrapup : String
deriving DecidableEq, Repr

/-- One validated ledger row as produced by `load_history_df`
(src/app.py:69): integer `id`, trimmed string ids, parsed dates. -/
structure LedgerEntry where
  id : Int
  inin_outbound_id : String
  borrower_id : String
  selected_at : Date
  allowed_again_at : Date
deriving DecidableEq, Repr

/-- One raw ledger row before validation.  The pandas per-cell parsers
(`pd.to_numeric`, `pd.to_datetime(...).dt.date`, both `errors="coerce"`)
are external-library behaviour, modelled as already-applied `Option`
values: `none` is a cell the parser coerced to NaN/NaT. -/
structure RawHistRow where
  id : Option Int
  inin_outbound_id : String
  borrower_id : String
  selected_at : Option Date
  allowed_again_at : Option Date
deriving DecidableEq, Repr

/-- One fully processed record: exactly the derived columns of the
working dataframe of `compute_outputs` (src/app.py:134-187), which is
also one audit row (src/app.py:257, with `borrower_id_norm` renamed
`borrower_id`). -/
structure Outcome where
  source_filename : String
  campaign_run_at : String
  borrower_id : String
  inin_outbound_id : String
  full_name : String
  phone_raw : String
  phone_full : String
  phone_10 : String
  first_name : String
  filter_cooldown_pass : Bool
  filter_result_pass : Bool
  filter_wrapup_pass : Bool
  filter_phone_pass : Bool
  is_selected_final : Bool
  drop_reason : String
  selected_at : String
  allowed_again_at : String
deriving DecidableEq, Repr

/-- One row of the campaign artifact (src/app.py:191). -/
structure CampaignRecord where
  country_code : String
  phone : String
  first_name : String
deriving DecidableEq, Repr

/-- One candidate new history row before id assignment
(src/app.py:202-211).  The source carries `selected_at` and
`allowed_again_at` as ISO strings of the run's dates; since `dateStr` is
injective, keys compare equal exactly when the dates do, so the model
carries the dates themselves. -/
structure CandRow where
  inin_outbound_id : String
  borrower_id : String
  selected_at : Date
  allowed_again_at : Date
deriving DecidableEq, Repr

/-- Dedup / reconciliation key of a ledger row:
(`inin_outbound_id`, `borrower_id`, `selected_at`) (src/app.py:209). -/
def entry_key (e : LedgerEntry) : String × String × Date :=
  (e.inin_outbound_id, e.borrower_id, e.selected_at)

/-- Dedup / reconciliation key of a candidate row. -/
def cand_key (c : CandRow) : String × String × Date :=
  (c.inin_outbound_id, c.borrower_id, c.selected_at)

/-- Source `load_history_df` (src/app.py:69): no file yields an empty
ledger; any date cell the parser coerced fails the run (the source
computes the two invalid-row counts and raises when either is positive,
with a fixed message); any non-numeric id fails the run; surviving rows
become `LedgerEntry` values with trimmed string ids. -/
def load_history (file : Option (List RawHistRow)) : Except String (List LedgerEntry) :=
  match file with
  | none => .ok []
  | some rows =>
    let invalid_selected := rows.countP (fun r => r.selected_at.isNone)
    let invalid_allowed := rows.countP (fun r => r.allowed_again_at.isNone)
    if invalid_selected > 0 || invalid_allowed > 0 then
      .error "El historico contiene fechas invalidas en selected_at o allowed_again_at."
    else if rows.any (fun r => r.id.isNone) then
      .error "El historico contiene valores invalidos en la columna id."
    else
      .ok (rows.map fun r =>
        { id := r.id.getD 0
          inin_outbound_id := py_strip r.inin_outbound_id
          borrower_id := py_strip r.borrower_id
          selected_at := r.selected_at.getD 0
          allowed_again_at := r.allowed_again_at.getD 0 })

/-- Source src/app.py:130-132: the cooldown set, borrower ids of ledger
rows with `allowed_again_at > today` (a Python set; modelled as the list
of those ids, membership being all that is used). -/
def blocked_borrowers (hist : List LedgerEntry) (today : Date) : List String :=
  (hist.filter fun e => decide (today < e.allowed_again_at)).map (·.borrower_id)

/-- Source src/app.py:173-187: `drop_reason` starts as `"selected"` and
is overwritten by the four successive masked assignments, in order. -/
def drop_reason_of (c r w p : Bool) : String :=
  let s0 := "selected"
  let s1 := if !c then "cooldown" else s0
  let s2 := if c && !r then "result" else s1
  let s3 := if c && r && !w then "wrapup" else s2
  let s4 := if c && r && w && !p then "invalid_phone" else s3
  s4

/-- Source src/app.py:134-187: all derived per-record columns of the
working dataframe, for one input record.  `src` and `ts` are the
run-constant `source_filename` and `campaign_run_at` columns. -/
def eval_record (src ts : String) (blocked : List String) (today : Date)
    (r : InputRecord) : Outcome :=
  let borrower_norm := py_strip r.borrower_id
  let outbound := py_strip r.inin_outbound_id
  let wrap_norm := py_lower (py_strip r.last_wrapup)
  let c := !decide (borrower_norm ∈ blocked)
  let res := decide (r.last_result = "") || starts_with r.last_result "ININ-OUTBOUND"
  let w := decide (wrap_norm = "") || decide (wrap_norm ∈ ALLOWED_WRAPUPS)
  let ph_full := normalize_digits r.phone
  let ph_10 := take_last ph_full 10
  let p := decide (ph_10.length = 10)
  let sel := c && res && w && p
  { source_filename := src
    campaign_run_at := ts
    borrower_id := borrower_norm
    inin_outbound_id := outbound
    full_name := r.full_name
    phone_raw := r.phone
    phone_full := ph_full
    phone_10 := ph_10
    first_name := first_name r.full_name
    filter_cooldown_pass := c
    filter_result_pass := res
    filter_wrapup_pass := w
    filter_phone_pass := p
    is_selected_final := sel
    drop_reason := drop_reason_of c res w p
    selected_at := if sel then dateStr today else ""
    allowed_again_at := if sel then dateStr (today + 7) else "" }

/-- Recursion behind `dedup_by_key`: walk the list keeping each element
whose key was not seen yet, accumulating the keys already kept. -/
def dedup_go {α κ : Type} [DecidableEq κ] (key : α → κ) : List α → List κ → List α
  | [], _ => []
  | x :: xs, seen =>
    if key x ∈ seen then dedup_go key xs seen
    else x :: dedup_go key xs (key x :: seen)

/-- Models pandas `drop_duplicates(subset=key, keep="first")`
(src/app.py:209, 249): keep the first occurrence of each key, preserving
order. -/
def dedup_by_key {α κ : Type} [DecidableEq κ] (key : α → κ) (l : List α) : List α :=
  dedup_go key l []

/-- Source src/app.py:233: `max(existing ids)` with default 0 on an
empty ledger. -/
def max_id (hist : List LedgerEntry) : Int :=
  match hist with
  | [] => 0
  | e :: es => es.foldl (fun a x => max a x.id) e.id

/-- Source src/app.py:235-241: give surviving candidates consecutive ids
starting at `n`, in list order. -/
def assign_ids : Int → List CandRow → List LedgerEntry
  | _, [] => []
  | n, c :: cs =>
    { id := n
      inin_outbound_id := c.inin_outbound_id
      borrower_id := c.borrower_id
      selected_at := c.selected_at
      allowed_again_at := c.allowed_again_at } :: assign_ids (n + 1) cs

/-- Source src/app.py:202-211: one candidate row per selected record,
re-trimming the id columns, with `selected_at = today` and
`allowed_again_at = today + 7`. -/
def candidate_rows (sel : List Outcome) (today : Date) : List CandRow :=
  sel.map fun o =>
    { inin_outbound_id := py_strip o.inin_outbound_id
      borrower_id := py_strip o.borrower_id
      selected_at := today
      allowed_again_at := today + 7 }

/-- Source src/app.py:202-244: candidates, intra-run dedup by key (first
occurrence wins), removal of candidates whose key already exists in the
pre-existing ledger, then id assignment starting at `max_id + 1`. -/
def new_history_rows (sel : List Outcome) (hist : List LedgerEntry) (today : Date) :
    List LedgerEntry :=
  let cands := dedup_by_key cand_key (candidate_rows sel today)
  let existing := hist.map entry_key
  let surviving := cands.filter fun c => !decide (cand_key c ∈ existing)
  assign_ids (max_id hist + 1) surviving

/-- Source src/app.py:246-251: existing ledger followed by the new rows,
de-duplicated once more by key, first occurrence wins. -/
def combined_history_of (hist nw : List LedgerEntry) : List LedgerEntry :=
  dedup_by_key entry_key (hist ++ nw)

/-- Source src/app.py:279-301: the summary counters (source key names
kept). -/
structure Metrics where
  registros_entrada : Nat
  removidos_cooldown : Nat
  removidos_result : Nat
  removidos_wrapup : Nat
  removidos_phone : Nat
  seleccionados_finales : Nat
  nuevos_en_historico : Nat
  registros_campana : Nat
deriving DecidableEq, Repr

/-- Everything one run returns: counters, updated ledger, audit rows
(the processed dataframe itself, one row per input record), campaign
rows; `new_entries` is the run's `new_history_rows` block, whose length
is the `nuevos_en_historico` counter. -/
structure RunResult where
  metrics : Metrics
  combined_history : List LedgerEntry
  audit : List Outcome
  campaign : List CampaignRecord
  new_entries : List LedgerEntry
deriving DecidableEq, Repr

/-- Source `compute_outputs` (src/app.py:110-306) after the history has
been loaded: the full pipeline over the parsed Genesys records, the
validated ledger and the run date. -/
def compute_core (src ts : String) (records : List InputRecord)
    (hist : List LedgerEntry) (today : Date) : RunResult :=
  let blocked := blocked_borrowers hist today
  let outs := records.map (eval_record src ts blocked today)
  let sel := outs.filter (·.is_selected_final)
  let campaign := sel.map fun o =>
    ({ country_code := "52", phone := o.phone_10, first_name := o.first_name } : CampaignRecord)
  let nw := new_history_rows sel hist today
  { metrics :=
      { registros_entrada := outs.length
        removidos_cooldown := outs.countP fun o => !o.filter_cooldown_pass
        removidos_result := outs.countP fun o =>
          o.filter_cooldown_pass && !o.filter_result_pass
        removidos_wrapup := outs.countP fun o =>
          o.filter_cooldown_pass && o.filter_result_pass && !o.filter_wrapup_pass
        removidos_phone := outs.countP fun o =>
          o.filter_cooldown_pass && o.filter_result_pass && o.filter_wrapup_pass &&
            !o.filter_phone_pass
        seleccionados_finales := outs.countP (·.is_selected_final)
        nuevos_en_historico := nw.length
        registros_campana := campaign.length }
    combined_history := combined_history_of hist nw
    audit := outs
    campaign := campaign
    new_entries := nw }

/-- Source `compute_outputs` including the history load: a load failure
aborts the run with the error and no artifacts. -/
def compute_outputs (src ts : String) (records : List InputRecord)
    (history_file : Option (List RawHistRow)) (today : Date) :
    Except String RunResult :=
  match load_history history_file with
  | .error e => .error e
  | .ok hist => .ok (compute_core src ts records hist today)

/-! ### Helper lemmas about the de-duplication pass -/

theorem dedup_go_nil {α κ : Type} [DecidableEq κ] (key : α → κ) (seen : List κ) :
    dedup_go key [] seen = [] := rfl

theorem dedup_go_cons {α κ : Type} [DecidableEq κ] (key : α → κ) (a : α) (as : List α)
    (seen : List κ) :
    dedup_go key (a :: as) seen =
      if key a ∈ seen then dedup_go key as seen
      else a :: dedup_go key as (key a :: seen) := rfl

theorem mem_of_mem_dedup_go {α κ : Type} [DecidableEq κ] (key : α → κ) :
    ∀ (l : List α) (seen : List κ) (x : α), x ∈ dedup_go key l seen → x ∈ l := by
  intro l
  induction l with
  | nil => intro seen x h; simp [dedup_go_nil] at h
  | cons a as ih =>
    intro seen x h
    rw [dedup_go_cons] at h
    by_cases hm : key a ∈ seen
    · rw [if_pos hm] at h
      exact List.mem_cons_of_mem _ (ih _ _ h)
    · rw [if_neg hm] at h
      rcases List.mem_cons.mp h with h | h
      · simp [h]
      · exact List.mem_cons_of_mem _ (ih _ _ h)

theorem mem_keys_dedup_go {α κ : Type} [DecidableEq κ] (key : α → κ) :
    ∀ (l : List α) (seen : List κ) (k : κ),
      k ∈ (dedup_go key l seen).map key ↔ (k ∈ l.map key ∧ k ∉ seen) := by
  intro l
  induction l with
  | nil => intro seen k; simp [dedup_go_nil]
  | cons a as ih =>
    intro seen k
    rw [dedup_go_cons]
    by_cases hm : key a ∈ seen
    · rw [if_pos hm, ih]
      simp only [List.map_cons, List.mem_cons]
      constructor
      · rintro ⟨h1, h2⟩; exact ⟨Or.inr h1, h2⟩
      · rintro ⟨h1 | h1, h2⟩
        · exact absurd (h1 ▸ hm) h2
        · exact ⟨h1, h2⟩
    · rw [if_neg hm]
      simp only [List.map_cons, List.mem_cons, ih (key a :: seen) k]
      constructor
      · rintro (rfl | ⟨h1, h2⟩)
        · exact ⟨Or.inl rfl, hm⟩
        · exact ⟨Or.inr h1, fun hk => h2 (Or.inr hk)⟩
      · rintro ⟨rfl | h1, h2⟩
        · exact Or.inl rfl
        · by_cases hk : k = key a
          · exact Or.inl hk
          · exact Or.inr ⟨h1, fun hc => hc.elim hk h2⟩

theorem keys_nodup_dedup_go {α κ : Type} [DecidableEq κ] (key : α → κ) :
    ∀ (l : List α) (seen : List κ), ((dedup_go key l seen).map key).Nodup := by
  intro l
  induction l with
  | nil => intro seen; simp [dedup_go_nil]
  | cons a as ih =>
    intro seen
    rw [dedup_go_cons]
    by_cases hm : key a ∈ seen
    · rw [if_pos hm]; exact ih seen
    · rw [if_neg hm]
      simp only [List.map_cons, List.nodup_cons]
      refine ⟨fun hc => ?_, ih (key a :: seen)⟩
      exact ((mem_keys_dedup_go key as (key a :: seen) (key a)).mp hc).2
        (List.mem_cons_self _ _)

theorem dedup_go_eq_self {α κ : Type} [DecidableEq κ] (key : α → κ) :
    ∀ (l : List α) (seen : List κ), (l.map key).Nodup →
      (∀ k ∈ l.map key, k ∉ seen) → dedup_go key l seen = l := by
  intro l
  induction l with
  | nil => intro seen _ _; rfl
  | cons a as ih =>
    intro seen hnd hseen
    simp only [List.map_cons, List.nodup_cons] at hnd
    have hm : key a ∉ seen := hseen (key a) (by simp)
    rw [dedup_go_cons, if_neg hm]
    congr 1
    refine ih (key a :: seen) hnd.2 ?_
    intro k hk
    intro hc
    rcases List.mem_cons.mp hc with rfl | hc
    · exact hnd.1 hk
    · exact hseen k (List.mem_cons_of_mem _ hk) hc

theorem dedup_go_length_le {α κ : Type} [DecidableEq κ] (key : α → κ) :
    ∀ (l : List α) (seen : List κ), (dedup_go key l seen).length ≤ l.length := by
  intro l
  induction l with
  | nil => intro seen; simp [dedup_go_nil]
  | cons a as ih =>
    intro seen
    rw [dedup_go_cons]
    by_cases hm : key a ∈ seen
    · rw [if_pos hm]
      exact Nat.le_trans (ih seen) (Nat.le_succ _)
    · rw [if_neg hm]
      simpa using Nat.succ_le_succ (ih (key a :: seen))

theorem mem_of_mem_dedup_by_key {α κ : Type} [DecidableEq κ] (key : α → κ) (l : List α)
    (x : α) (h : x ∈ dedup_by_key key l) : x ∈ l :=
  mem_of_mem_dedup_go key l [] x h

theorem mem_keys_dedup_by_key {α κ : Type} [DecidableEq κ] (key : α → κ) (l : List α)
    (k : κ) : k ∈ (dedup_by_key key l).map key ↔ k ∈ l.map key := by
  rw [dedup_by_key, mem_keys_dedup_go]
  simp

theorem keys_nodup_dedup_by_key {α κ : Type} [DecidableEq κ] (key : α → κ) (l : List α) :
    ((dedup_by_key key l).map key).Nodup :=
  keys_nodup_dedup_go key l []

theorem dedup_by_key_eq_self {α κ : Type} [DecidableEq κ] (key : α → κ) (l : List α)
    (h : (l.map key).Nodup) : dedup_by_key key l = l :=
  dedup_go_eq_self key l [] h (by simp)

theorem dedup_by_key_length_le {α κ : Type} [DecidableEq κ] (key : α → κ) (l : List α) :
    (dedup_by_key key l).length ≤ l.length :=
  dedup_go_length_le key l []

/-! ### Helper lemmas about id assignment and the maximum existing id -/

theorem assign_ids_length : ∀ (n : Int) (cs : List CandRow),
    (assign_ids n cs).length = cs.length := by
  intro n cs
  induction cs generalizing n with
  | nil => rfl
  | cons c cs ih => simp [assign_ids, ih]

theorem assign_ids_map_key : ∀ (n : Int) (cs : List CandRow),
    (assign_ids n cs).map entry_key = cs.map cand_key := by
  intro n cs
  induction cs generalizing n with
  | nil => rfl
  | cons c cs ih => simp [assign_ids, ih, entry_key, cand_key]

theorem assign_ids_map_id : ∀ (n : Int) (cs : List CandRow),
    (assign_ids n cs).map (·.id) =
      (List.range cs.length).map (fun (i : Nat) => n + (i : Int)) := by
  intro n cs
  induction cs generalizing n with
  | nil => rfl
  | cons c cs ih =>
    simp only [assign_ids, List.map_cons, List.length_cons, List.range_succ_eq_map,
      List.map_map, ih]
    congr 1
    · simp
    · apply List.map_congr_left
      intro i _
      simp only [Function.comp_apply]
      push_cast
      ring

theorem assign_ids_id_ge : ∀ (n : Int) (cs : List CandRow) (e : LedgerEntry),
    e ∈ assign_ids n cs → n ≤ e.id := by
  intro n cs
  induction cs generalizing n with
  | nil => intro e h; simp [assign_ids] at h
  | cons c cs ih =>
    intro e h
    rcases List.mem_cons.mp h with rfl | h
    · exact le_refl _
    · exact le_trans (by omega) (ih (n + 1) e h)

theorem le_max_id_foldl : ∀ (es : List LedgerEntry) (a : Int),
    a ≤ es.foldl (fun b x => max b x.id) a := by
  intro es
  induction es with
  | nil => intro a; exact le_refl a
  | cons e es ih =>
    intro a
    exact le_trans (le_max_left a e.id) (ih (max a e.id))

theorem mem_le_max_id_foldl : ∀ (es : List LedgerEntry) (a : Int) (x : LedgerEntry),
    x ∈ es → x.id ≤ es.foldl (fun b x => max b x.id) a := by
  intro es
  induction es with
  | nil => intro a x h; simp at h
  | cons e es ih =>
    intro a x h
    rcases List.mem_cons.mp h with rfl | h
    · exact le_trans (le_max_right a x.id) (le_max_id_foldl es (max a x.id))
    · exact ih (max a e.id) x h

theorem le_max_id (hist : List LedgerEntry) (e : LedgerEntry) (h : e ∈ hist) :
    e.id ≤ max_id hist := by
  cases hist with
  | nil => simp at h
  | cons x xs =>
    rcases List.mem_cons.mp h with rfl | h
    · exact le_max_id_foldl xs e.id
    · exact mem_le_max_id_foldl xs x.id e h

/-! ### Helper lemmas about the cooldown set and per-record evaluation -/

theorem mem_blocked_borrowers (hist : List LedgerEntry) (today : Date) (b : String) :
    b ∈ blocked_borrowers hist today ↔
      ∃ e ∈ hist, e.borrower_id = b ∧ today < e.allowed_again_at := by
  simp only [blocked_borrowers, List.mem_map, List.mem_filter, decide_eq_true_eq]
  constructor
  · rintro ⟨e, ⟨he, hlt⟩, rfl⟩; exact ⟨e, he, rfl, hlt⟩
  · rintro ⟨e, he, rfl, hlt⟩; exact ⟨e, ⟨he, hlt⟩, rfl⟩

theorem blocked_borrowers_append (h1 h2 : List LedgerEntry) (today : Date) :
    blocked_borrowers (h1 ++ h2) today =
      blocked_borrowers h1 today ++ blocked_borrowers h2 today := by
  simp [blocked_borrowers, List.filter_append]

theorem eval_record_cooldown (src ts : String) (blocked : List String) (today : Date)
    (r : InputRecord) :
    (eval_record src ts blocked today r).filter_cooldown_pass =
      !decide (py_strip r.borrower_id ∈ blocked) := rfl

theorem eval_record_result (src ts : String) (blocked : List String) (today : Date)
    (r : InputRecord) :
    (eval_record src ts blocked today r).filter_result_pass =
      (decide (r.last_result = "") || starts_with r.last_result "ININ-OUTBOUND") := rfl

theorem eval_record_wrapup (src ts : String) (blocked : List String) (today : Date)
    (r : InputRecord) :
    (eval_record src ts blocked today r).filter_wrapup_pass =
      (decide (py_lower (py_strip r.last_wrapup) = "") ||
        decide (py_lower (py_strip r.last_wrapup) ∈ ALLOWED_WRAPUPS)) := rfl

theorem eval_record_phone (src ts : String) (blocked : List String) (today : Date)
    (r : InputRecord) :
    (eval_record src ts blocked today r).filter_phone_pass =
      decide ((take_last (normalize_digits r.phone) 10).length = 10) := rfl

theorem eval_record_selected (src ts : String) (blocked : List String) (today : Date)
    (r : InputRecord) :
    (eval_record src ts blocked today r).is_selected_final =
      ((eval_record src ts blocked today r).filter_cooldown_pass &&
        (eval_record src ts blocked today r).filter_result_pass &&
        (eval_record src ts blocked today r).filter_wrapup_pass &&
        (eval_record src ts blocked today r).filter_phone_pass) := rfl

theorem eval_record_drop_reason (src ts : String) (blocked : List String) (today : Date)
    (r : InputRecord) :
    (eval_record src ts blocked today r).drop_reason =
      drop_reason_of (eval_record src ts blocked today r).filter_cooldown_pass
        (eval_record src ts blocked today r).filter_result_pass
        (eval_record src ts blocked today r).filter_wrapup_pass
        (eval_record src ts blocked today r).filter_phone_pass := rfl

theorem eval_record_borrower (src ts : String) (blocked : List String) (today : Date)
    (r : InputRecord) :
    (eval_record src ts blocked today r).borrower_id = py_strip r.borrower_id := rfl

theorem eval_record_outbound (src ts : String) (blocked : List String) (today : Date)
    (r : InputRecord) :
    (eval_record src ts blocked today r).inin_outbound_id = py_strip r.inin_outbound_id := rfl

theorem eval_record_selected_at (src ts : String) (blocked : List String) (today : Date)
    (r : InputRecord) :
    (eval_record src ts blocked today r).selected_at =
      (if (eval_record src ts blocked today r).is_selected_final then dateStr today
       else "") := rfl

theorem eval_record_allowed_again_at (src ts : String) (blocked : List String)
    (today : Date) (r : InputRecord) :
    (eval_record src ts blocked today r).allowed_again_at =
      (if (eval_record src ts blocked today r).is_selected_final then dateStr (today + 7)
       else "") := rfl

/-! ### Helper lemmas about drop reasons, phone truncation and dates -/

theorem drop_reason_of_eq_chain (c r w p : Bool) :
    drop_reason_of c r w p =
      (if !c then "cooldown"
       else if !r then "result"
       else if !w then "wrapup"
       else if !p then "invalid_phone"
       else "selected") := by
  cases c <;> cases r <;> cases w <;> cases p <;> rfl

theorem drop_reason_of_selected_iff (c r w p : Bool) :
    drop_reason_of c r w p = "selected" ↔ (c && r && w && p) = true := by
  cases c <;> cases r <;> cases w <;> cases p <;> simp [drop_reason_of]

theorem take_last_length (s : String) (n : Nat) :
    (take_last s n).length = min n s.length := by
  show (s.data.drop (s.data.length - n)).length = min n s.data.length
  rw [List.length_drop]
  omega

theorem toDigitsCore_length_ge (b : Nat) : ∀ (f n : Nat) (l : List Char),
    l.length ≤ (Nat.toDigitsCore b f n l).length := by
  intro f
  induction f with
  | zero => intro n l; simp [Nat.toDigitsCore]
  | succ f ih =>
    intro n l
    simp only [Nat.toDigitsCore]
    by_cases h : n / b = 0
    · simp [h]
    · simp only [if_neg h]
      calc l.length ≤ (Nat.digitChar (n % b) :: l).length := by simp
        _ ≤ _ := ih (n / b) (Nat.digitChar (n % b) :: l)

theorem natRepr_ne_empty (n : Nat) : Nat.repr n ≠ "" := by
  have h : 1 ≤ (Nat.toDigits 10 n).length := by
    unfold Nat.toDigits
    calc 1 = ([Nat.digitChar (n % 10)] : List Char).length := by simp
      _ ≤ _ := by
        simp only [Nat.toDigitsCore]
        by_cases h : n / 10 = 0
        · simp [h]
        · simp only [if_neg h]
          exact toDigitsCore_length_ge 10 n (n / 10) [Nat.digitChar (n % 10)]
  intro hc
  unfold Nat.repr at hc
  have hd : (Nat.toDigits 10 n).asString.data = ("" : String).data := by rw [hc]
  simp [List.asString] at hd
  rw [hd] at h
  simp at h

theorem dateStr_ne_empty (d : Date) : dateStr d ≠ "" := by
  unfold dateStr
  cases d with
  | ofNat m => exact natRepr_ne_empty m
  | negSucc m =>
    intro hc
    simp only [Int.repr] at hc
    have hd : ("-" ++ Nat.repr (m + 1)).data = ("" : String).data := by rw [hc]
    simp [String.data_append] at hd

/-! ### Helper lemmas about the assembled run -/

theorem compute_core_audit (src ts : String) (records : List InputRecord)
    (hist : List LedgerEntry) (today : Date) :
    (compute_core src ts records hist today).audit =
      records.map (eval_record src ts (blocked_borrowers hist today) today) := rfl

theorem compute_core_new_entries (src ts : String) (records : List InputRecord)
    (hist : List LedgerEntry) (today : Date) :
    (compute_core src ts records hist today).new_entries =
      new_history_rows
        ((records.map (eval_record src ts (blocked_borrowers hist today) today)).filter
          (·.is_selected_final))
        hist today := rfl

theorem compute_core_combined (src ts : String) (records : List InputRecord)
    (hist : List LedgerEntry) (today : Date) :
    (compute_core src ts records hist today).combined_history =
      combined_history_of hist (compute_core src ts records hist today).new_entries := rfl

theorem compute_core_campaign (src ts : String) (records : List InputRecord)
    (hist : List LedgerEntry) (today : Date) :
    (compute_core src ts records hist today).campaign =
      ((records.map (eval_record src ts (blocked_borrowers hist today) today)).filter
        (·.is_selected_final)).map
        (fun o => (⟨"52", o.phone_10, o.first_name⟩ : CampaignRecord)) := rfl

theorem new_history_rows_keys_nodup (sel : List Outcome) (hist : List LedgerEntry)
    (today : Date) :
    ((new_history_rows sel hist today).map entry_key).Nodup := by
  unfold new_history_rows
  rw [assign_ids_map_key]
  have hsub : ((dedup_by_key cand_key (candidate_rows sel today)).filter
      (fun c => !decide (cand_key c ∈ hist.map entry_key))).map cand_key |>.Sublist
      ((dedup_by_key cand_key (candidate_rows sel today)).map cand_key) :=
    List.Sublist.map cand_key (List.filter_sublist _)
  exact List.Nodup.sublist hsub (keys_nodup_dedup_by_key cand_key _)

theorem new_history_rows_keys_disjoint (sel : List Outcome) (hist : List LedgerEntry)
    (today : Date) (k : String × String × Date)
    (hk : k ∈ (new_history_rows sel hist today).map entry_key) :
    k ∉ hist.map entry_key := by
  unfold new_history_rows at hk
  rw [assign_ids_map_key] at hk
  rcases List.mem_map.mp hk with ⟨c, hc, rfl⟩
  rcases List.mem_filter.mp hc with ⟨_, hpred⟩
  simpa using hpred

theorem combined_history_eq_append (hist nw : List LedgerEntry)
    (hh : (hist.map entry_key).Nodup)
    (hn : (nw.map entry_key).Nodup)
    (hdisj : ∀ k ∈ nw.map entry_key, k ∉ hist.map entry_key) :
    combined_history_of hist nw = hist ++ nw := by
  unfold combined_history_of dedup_by_key
  apply dedup_go_eq_self
  · rw [List.map_append]
    rw [List.nodup_append]
    exact ⟨hh, hn, fun k hk1 hk2 => hdisj k hk2 hk1⟩
  · simp

/-! ### Sample data used by witnesses -/

/-- Sample Genesys record passing all four predicates (whitespace and
formatting chosen to exercise the normalizations). -/
def sampleRecord : InputRecord :=
  { inin_outbound_id := " OB-1 "
    borrower_id := " B42 "
    full_name := "Ana Maria Lopez"
    phone := "+52 (55) 1234-5678"
    last_result := ""
    last_wrapup := "Call Back " }

/-- Sample pre-existing ledger row whose cooldown has expired by day 10. -/
def sampleEntry : LedgerEntry :=
  { id := 1
    inin_outbound_id := "OB-0"
    borrower_id := "B41"
    selected_at := 3
    allowed_again_at := 10 }

/-! ### Claims -/

/-- C4: for every record of a run, the aggregate `is_selected_final`
flag equals the conjunction of the four pass booleans, and the drop
reason is `"selected"` exactly when the record is selected. -/
theorem selected_iff_all_pass (src ts : String) (records : List InputRecord)
    (hist : List LedgerEntry) (today : Date) (o : Outcome)
    (ho : o ∈ (compute_core src ts records hist today).audit) :
    o.is_selected_final =
      (o.filter_cooldown_pass && o.filter_result_pass && o.filter_wrapup_pass &&
        o.filter_phone_pass) ∧
    (o.drop_reason = "selected" ↔ o.is_selected_final = true) := by
  rw [compute_core_audit] at ho
  rcases List.mem_map.mp ho with ⟨r, _, rfl⟩
  refine ⟨eval_record_selected .., ?_⟩
  rw [eval_record_drop_reason, drop_reason_of_selected_iff, eval_record_selected]

/-- Witness for C4 at a concrete run. -/
theorem selected_iff_all_pass_witness :
    (eval_record "f" "t" (blocked_borrowers [sampleEntry] 10) 10 sampleRecord).is_selected_final =
      ((eval_record "f" "t" (blocked_borrowers [sampleEntry] 10) 10 sampleRecord).filter_cooldown_pass &&
        (eval_record "f" "t" (blocked_borrowers [sampleEntry] 10) 10 sampleRecord).filter_result_pass &&
        (eval_record "f" "t" (blocked_borrowers [sampleEntry] 10) 10 sampleRecord).filter_wrapup_pass &&
        (eval_record "f" "t" (blocked_borrowers [sampleEntry] 10) 10 sampleRecord).filter_phone_pass) ∧
    ((eval_record "f" "t" (blocked_borrowers [sampleEntry] 10) 10 sampleRecord).drop_reason = "selected" ↔
      (eval_record "f" "t" (blocked_borrowers [sampleEntry] 10) 10 sampleRecord).is_selected_final = true) :=
  selected_iff_all_pass "f" "t" [sampleRecord] [sampleEntry] 10 _ (by decide)

/-- C3: for every record of a run, `drop_reason` follows the strict
priority chain cooldown, result, wrapup, phone; in particular a record
failing cooldown and phone reports `"cooldown"`, and a record failing
only phone reports `"invalid_phone"`. -/
theorem drop_reason_priority (src ts : String) (records : List InputRecord)
    (hist : List LedgerEntry) (today : Date) (o : Outcome)
    (ho : o ∈ (compute_core src ts records hist today).audit) :
    o.drop_reason =
      (if !o.filter_cooldown_pass then "cooldown"
       else if !o.filter_result_pass then "result"
       else if !o.filter_wrapup_pass then "wrapup"
       else if !o.filter_phone_pass then "invalid_phone"
       else "selected") ∧
    (o.filter_cooldown_pass = false ∧ o.filter_phone_pass = false →
      o.drop_reason = "cooldown") ∧
    (o.filter_cooldown_pass = true ∧ o.filter_result_pass = true ∧
      o.filter_wrapup_pass = true ∧ o.filter_phone_pass = false →
      o.drop_reason = "invalid_phone") := by
  rw [compute_core_audit] at ho
  rcases List.mem_map.mp ho with ⟨r, _, rfl⟩
  rw [eval_record_drop_reason]
  refine ⟨drop_reason_of_eq_chain .., ?_, ?_⟩
  · rintro ⟨hc, hp⟩
    rw [drop_reason_of_eq_chain, hc, hp]
    rfl
  · rintro ⟨hc, hr, hw, hp⟩
    rw [drop_reason_of_eq_chain, hc, hr, hw, hp]
    rfl

/-- Witness for C3 at a concrete run: a record failing cooldown and
phone reports `"cooldown"`. -/
theorem drop_reason_priority_witness :
    (eval_record "f" "t" (blocked_borrowers [⟨7, "OB-9", "B99", 44, 60⟩] 50) 50
        ⟨"OB-2", "B99", "Jo", "123", "", ""⟩).filter_cooldown_pass = false ∧
    (eval_record "f" "t" (blocked_borrowers [⟨7, "OB-9", "B99", 44, 60⟩] 50) 50
        ⟨"OB-2", "B99", "Jo", "123", "", ""⟩).filter_phone_pass = false ∧
    (eval_record "f" "t" (blocked_borrowers [⟨7, "OB-9", "B99", 44, 60⟩] 50) 50
        ⟨"OB-2", "B99", "Jo", "123", "", ""⟩).drop_reason = "cooldown" := by
  have h := (drop_reason_priority "f" "t" [⟨"OB-2", "B99", "Jo", "123", "", ""⟩]
    [⟨7, "OB-9", "B99", 44, 60⟩] 50
    (eval_record "f" "t" (blocked_borrowers [⟨7, "OB-9", "B99", 44, 60⟩] 50) 50
      ⟨"OB-2", "B99", "Jo", "123", "", ""⟩) (by decide)).2.1
  exact ⟨by decide, by decide, h ⟨by decide, by decide⟩⟩

/-- C1: the cooldown set consists exactly of the borrower ids of ledger
rows with `allowed_again_at` strictly greater than the run's `today`;
hence a record passes cooldown iff every matching ledger row has
`allowed_again_at ≤ today`, and a matching row with
`allowed_again_at = today + 1` forces a failure. -/
theorem cooldown_strict_cutoff (src ts : String) (records : List InputRecord)
    (hist : List LedgerEntry) (today : Date) (o : Outcome)
    (ho : o ∈ (compute_core src ts records hist today).audit) :
    (∀ b : String, b ∈ blocked_borrowers hist today ↔
      ∃ e ∈ hist, e.borrower_id = b ∧ today < e.allowed_again_at) ∧
    (o.filter_cooldown_pass = true ↔
      ∀ e ∈ hist, e.borrower_id = o.borrower_id → e.allowed_again_at ≤ today) ∧
    ((∃ e ∈ hist, e.borrower_id = o.borrower_id ∧ e.allowed_again_at = today + 1) →
      o.filter_cooldown_pass = false) := by
  rw [compute_core_audit] at ho
  rcases List.mem_map.mp ho with ⟨r, _, rfl⟩
  refine ⟨fun b => mem_blocked_borrowers hist today b, ?_, ?_⟩
  · rw [eval_record_cooldown, eval_record_borrower]
    simp only [Bool.not_eq_true', decide_eq_false_iff_not, mem_blocked_borrowers]
    push_neg
    rfl
  · rintro ⟨e, he, hb, hallow⟩
    rw [eval_record_cooldown]
    rw [eval_record_borrower] at hb
    simp only [Bool.not_eq_false', decide_eq_true_eq]
    exact mem_blocked_borrowers hist today _ |>.mpr
      ⟨e, he, hb, by rw [hallow]; exact lt_add_one today⟩

/-- Witness for C1 at a concrete run: a prior entry with
`allowed_again_at = today + 1` blocks the borrower. -/
theorem cooldown_strict_cutoff_witness :
    ((⟨7, "OB-9", "B99", 44, 51⟩ : LedgerEntry) ∈ ([⟨7, "OB-9", "B99", 44, 51⟩] : List LedgerEntry)) ∧
    (eval_record "f" "t" (blocked_borrowers [⟨7, "OB-9", "B99", 44, 51⟩] 50) 50
      ⟨"OB-2", "B99", "Jo", "5512345678", "", ""⟩).filter_cooldown_pass = false := by
  refine ⟨by decide, ?_⟩
  exact (cooldown_strict_cutoff "f" "t" [⟨"OB-2", "B99", "Jo", "5512345678", "", ""⟩]
    [⟨7, "OB-9", "B99", 44, 51⟩] 50
    (eval_record "f" "t" (blocked_borrowers [⟨7, "OB-9", "B99", 44, 51⟩] 50) 50
      ⟨"OB-2", "B99", "Jo", "5512345678", "", ""⟩) (by decide)).2.2
    ⟨⟨7, "OB-9", "B99", 44, 51⟩, by decide, by decide, by decide⟩

/-- C7: for every record of a run, the phone is reduced to its digits,
truncated to the last 10 characters, and passes iff that truncation has
length exactly 10, equivalently iff the digit string has at least 10
digits; the spec's two concrete examples behave as stated. -/
theorem phone_predicate (src ts : String) (records : List InputRecord)
    (hist : List LedgerEntry) (today : Date) (o : Outcome)
    (ho : o ∈ (compute_core src ts records hist today).audit) :
    (o.phone_full = normalize_digits o.phone_raw ∧
     o.phone_10 = take_last o.phone_full 10 ∧
     (o.filter_phone_pass = true ↔ o.phone_10.length = 10) ∧
     (o.filter_phone_pass = true ↔ 10 ≤ o.phone_full.length)) ∧
    (normalize_digits "+52 (55) 1234-5678" = "525512345678" ∧
     take_last "525512345678" 10 = "5512345678" ∧
     (eval_record src ts (blocked_borrowers hist today) today
        ⟨"o", "b", "n", "+52 (55) 1234-5678", "", ""⟩).filter_phone_pass = true ∧
     (eval_record src ts (blocked_borrowers hist today) today
        ⟨"o", "b", "n", "12345", "", ""⟩).filter_phone_pass = false) := by
  rw [compute_core_audit] at ho
  rcases List.mem_map.mp ho with ⟨r, _, rfl⟩
  constructor
  · refine ⟨rfl, rfl, ?_, ?_⟩
    · rw [eval_record_phone]
      simp only [decide_eq_true_eq]
      exact Iff.rfl
    · rw [eval_record_phone]
      simp only [decide_eq_true_eq]
      show (take_last (normalize_digits r.phone) 10).length = 10 ↔
        10 ≤ (normalize_digits r.phone).length
      rw [take_last_length]
      omega
  · refine ⟨by decide, by decide, ?_, ?_⟩
    · rw [eval_record_phone]; decide
    · rw [eval_record_phone]; decide

/-- Witness for C7 at a concrete run. -/
theorem phone_predicate_witness :
    ((eval_record "f" "t" (blocked_borrowers [] 0) 0 sampleRecord).filter_phone_pass = true ↔
      (eval_record "f" "t" (blocked_borrowers [] 0) 0 sampleRecord).phone_10.length = 10) :=
  ((phone_predicate "f" "t" [sampleRecord] [] 0 _ (by decide)).1).2.2.1

/-- C9: the audit has exactly one row per input record, in input order;
each row carries the four pass booleans each computed from its own full
formula (never short-circuited), the aggregate flag, the priority drop
reason, the phone at each normalization stage, the derived first name,
and date strings that are empty exactly when the record is not
selected. -/
theorem audit_completeness (src ts : String) (records : List InputRecord)
    (hist : List LedgerEntry) (today : Date) :
    (compute_core src ts records hist today).audit.length = records.length ∧
    (∀ (i : Nat) (h1 : i < records.length)
      (h2 : i < (compute_core src ts records hist today).audit.length),
      (compute_core src ts records hist today).audit.get ⟨i, h2⟩ =
        eval_record src ts (blocked_borrowers hist today) today (records.get ⟨i, h1⟩) ∧
      ((compute_core src ts records hist today).audit.get ⟨i, h2⟩).filter_cooldown_pass =
        !decide (py_strip (records.get ⟨i, h1⟩).borrower_id ∈ blocked_borrowers hist today) ∧
      ((compute_core src ts records hist today).audit.get ⟨i, h2⟩).filter_result_pass =
        (decide ((records.get ⟨i, h1⟩).last_result = "") ||
          starts_with (records.get ⟨i, h1⟩).last_result "ININ-OUTBOUND") ∧
      ((compute_core src ts records hist today).audit.get ⟨i, h2⟩).filter_wrapup_pass =
        (decide (py_lower (py_strip (records.get ⟨i, h1⟩).last_wrapup) = "") ||
          decide (py_lower (py_strip (records.get ⟨i, h1⟩).last_wrapup) ∈ ALLOWED_WRAPUPS)) ∧
      ((compute_core src ts records hist today).audit.get ⟨i, h2⟩).filter_phone_pass =
        decide ((take_last (normalize_digits (records.get ⟨i, h1⟩).phone) 10).length = 10) ∧
      ((compute_core src ts records hist today).audit.get ⟨i, h2⟩).is_selected_final =
        (((compute_core src ts records hist today).audit.get ⟨i, h2⟩).filter_cooldown_pass &&
          ((compute_core src ts records hist today).audit.get ⟨i, h2⟩).filter_result_pass &&
          ((compute_core src ts records hist today).audit.get ⟨i, h2⟩).filter_wrapup_pass &&
          ((compute_core src ts records hist today).audit.get ⟨i, h2⟩).filter_phone_pass) ∧
      ((compute_core src ts records hist today).audit.get ⟨i, h2⟩).drop_reason =
        drop_reason_of
          ((compute_core src ts records hist today).audit.get ⟨i, h2⟩).filter_cooldown_pass
          ((compute_core src ts records hist today).audit.get ⟨i, h2⟩).filter_result_pass
          ((compute_core src ts records hist today).audit.get ⟨i, h2⟩).filter_wrapup_pass
          ((compute_core src ts records hist today).audit.get ⟨i, h2⟩).filter_phone_pass ∧
      ((compute_core src ts records hist today).audit.get ⟨i, h2⟩).phone_raw =
        (records.get ⟨i, h1⟩).phone ∧
      ((compute_core src ts records hist today).audit.get ⟨i, h2⟩).phone_full =
        normalize_digits (records.get ⟨i, h1⟩).phone ∧
      ((compute_core src ts records hist today).audit.get ⟨i, h2⟩).phone_10 =
        take_last (normalize_digits (records.get ⟨i, h1⟩).phone) 10 ∧
      ((compute_core src ts records hist today).audit.get ⟨i, h2⟩).first_name =
        first_name (records.get ⟨i, h1⟩).full_name ∧
      (((compute_core src ts records hist today).audit.get ⟨i, h2⟩).selected_at = "" ↔
        ((compute_core src ts records hist today).audit.get ⟨i, h2⟩).is_selected_final = false) ∧
      (((compute_core src ts records hist today).audit.get ⟨i, h2⟩).allowed_again_at = "" ↔
        ((compute_core src ts records hist today).audit.get ⟨i, h2⟩).is_selected_final = false)) := by
  have hlen : (compute_core src ts records hist today).audit.length = records.length := by
    rw [compute_core_audit, List.length_map]
  refine ⟨hlen, ?_⟩
  intro i h1 h2
  have hget : (compute_core src ts records hist today).audit.get ⟨i, h2⟩ =
      eval_record src ts (blocked_borrowers hist today) today (records.get ⟨i, h1⟩) := by
    simp only [List.get_eq_getElem, compute_core_audit, List.getElem_map]
  rw [hget]
  refine ⟨rfl, rfl, rfl, rfl, rfl, eval_record_selected .., eval_record_drop_reason ..,
    rfl, rfl, rfl, rfl, ?_, ?_⟩
  · rw [eval_record_selected_at]
    cases hb : (eval_record src ts (blocked_borrowers hist today) today
        (records.get ⟨i, h1⟩)).is_selected_final
    · simp
    · simp [dateStr_ne_empty]
  · rw [eval_record_allowed_again_at]
    cases hb : (eval_record src ts (blocked_borrowers hist today) today
        (records.get ⟨i, h1⟩)).is_selected_final
    · simp
    · simp [dateStr_ne_empty]

/-- Witness for C9 at a concrete run and index. -/
theorem audit_completeness_witness :
    (compute_core "f" "t" [sampleRecord] [sampleEntry] 10).audit.get ⟨0, by decide⟩ =
      eval_record "f" "t" (blocked_borrowers [sampleEntry] 10) 10
        ([sampleRecord].get ⟨0, by decide⟩) :=
  ((audit_completeness "f" "t" [sampleRecord] [sampleEntry] 10).2 0 (by decide) (by decide)).1

/-- Partition of a processed record list by the five summary counters:
whenever the aggregate flag is the conjunction of the four pass flags,
each record is counted exactly once. -/
theorem countP_partition (l : List Outcome)
    (h : ∀ o ∈ l, o.is_selected_final =
      (o.filter_cooldown_pass && o.filter_result_pass && o.filter_wrapup_pass &&
        o.filter_phone_pass)) :
    l.countP (fun o => !o.filter_cooldown_pass) +
      l.countP (fun o => o.filter_cooldown_pass && !o.filter_result_pass) +
      l.countP (fun o => o.filter_cooldown_pass && o.filter_result_pass &&
        !o.filter_wrapup_pass) +
      l.countP (fun o => o.filter_cooldown_pass && o.filter_result_pass &&
        o.filter_wrapup_pass && !o.filter_phone_pass) +
      l.countP (·.is_selected_final) = l.length := by
  induction l with
  | nil => rfl
  | cons o l ih =>
    have ho := h o (List.mem_cons_self o l)
    have ihh := ih (fun x hx => h x (List.mem_cons_of_mem _ hx))
    simp only [List.countP_cons, List.length_cons]
    cases hc : o.filter_cooldown_pass <;> cases hr : o.filter_result_pass <;>
      cases hw : o.filter_wrapup_pass <;> cases hp : o.filter_phone_pass <;>
      simp [hc, hr, hw, hp, ho] <;> omega

/-- The surviving new ledger rows are never more numerous than the
selected records they come from. -/
theorem new_history_rows_length_le (sel : List Outcome) (hist : List LedgerEntry)
    (today : Date) : (new_history_rows sel hist today).length ≤ sel.length := by
  unfold new_history_rows
  rw [assign_ids_length]
  calc (List.filter _ (dedup_by_key cand_key (candidate_rows sel today))).length
      ≤ (dedup_by_key cand_key (candidate_rows sel today)).length :=
        List.length_filter_le _ _
    _ ≤ (candidate_rows sel today).length := dedup_by_key_length_le _ _
    _ = sel.length := by unfold candidate_rows; rw [List.length_map]

/-- C10: the per-stage removal counters partition the input records
together with the final selected count, the campaign record count
equals the final selected count, and the new-ledger-entries count is at
most the final selected count. -/
theorem metrics_partition (src ts : String) (records : List InputRecord)
    (hist : List LedgerEntry) (today : Date) :
    (compute_core src ts records hist today).metrics.removidos_cooldown +
      (compute_core src ts records hist today).metrics.removidos_result +
      (compute_core src ts records hist today).metrics.removidos_wrapup +
      (compute_core src ts records hist today).metrics.removidos_phone +
      (compute_core src ts records hist today).metrics.seleccionados_finales =
      (compute_core src ts records hist today).metrics.registros_entrada ∧
    (compute_core src ts records hist today).metrics.registros_campana =
      (compute_core src ts records hist today).metrics.seleccionados_finales ∧
    (compute_core src ts records hist today).metrics.nuevos_en_historico ≤
      (compute_core src ts records hist today).metrics.seleccionados_finales := by
  refine ⟨?_, ?_, ?_⟩
  · show (records.map (eval_record src ts (blocked_borrowers hist today) today)).countP
        (fun o => !o.filter_cooldown_pass) +
      (records.map (eval_record src ts (blocked_borrowers hist today) today)).countP
        (fun o => o.filter_cooldown_pass && !o.filter_result_pass) +
      (records.map (eval_record src ts (blocked_borrowers hist today) today)).countP
        (fun o => o.filter_cooldown_pass && o.filter_result_pass &&
          !o.filter_wrapup_pass) +
      (records.map (eval_record src ts (blocked_borrowers hist today) today)).countP
        (fun o => o.filter_cooldown_pass && o.filter_result_pass &&
          o.filter_wrapup_pass && !o.filter_phone_pass) +
      (records.map (eval_record src ts (blocked_borrowers hist today) today)).countP
        (·.is_selected_final) =
      (records.map (eval_record src ts (blocked_borrowers hist today) today)).length
    apply countP_partition
    intro o hoo
    rcases List.mem_map.mp hoo with ⟨r, _, rfl⟩
    exact eval_record_selected ..
  · show (((records.map (eval_record src ts (blocked_borrowers hist today) today)).filter
        (·.is_selected_final)).map
        (fun o => (⟨"52", o.phone_10, o.first_name⟩ : CampaignRecord))).length =
      (records.map (eval_record src ts (blocked_borrowers hist today) today)).countP
        (·.is_selected_final)
    rw [List.length_map, List.countP_eq_length_filter]
  · show (new_history_rows
        ((records.map (eval_record src ts (blocked_borrowers hist today) today)).filter
          (·.is_selected_final)) hist today).length ≤
      (records.map (eval_record src ts (blocked_borrowers hist today) today)).countP
        (·.is_selected_final)
    rw [List.countP_eq_length_filter]
    exact new_history_rows_length_le _ _ _

/-- C5: the new ledger rows of a run receive the consecutive ids
`max_id + 1, ..., max_id + k` in survival order, each id is strictly
larger than every pre-existing id (so never reused), and every row of
the updated ledger is either a pre-existing row unchanged or a new
row. -/
theorem surrogate_id_assignment (src ts : String) (records : List InputRecord)
    (hist : List LedgerEntry) (today : Date) :
    (compute_core src ts records hist today).new_entries.map (·.id) =
      (List.range (compute_core src ts records hist today).new_entries.length).map
        (fun (i : Nat) => max_id hist + 1 + (i : Int)) ∧
    (∀ e ∈ (compute_core src ts records hist today).new_entries,
      ∀ x ∈ hist, x.id < e.id) ∧
    (∀ x ∈ (compute_core src ts records hist today).combined_history,
      x ∈ hist ∨ x ∈ (compute_core src ts records hist today).new_entries) := by
  refine ⟨?_, ?_, ?_⟩
  · rw [compute_core_new_entries]
    unfold new_history_rows
    rw [assign_ids_map_id, assign_ids_length]
  · intro e he x hx
    rw [compute_core_new_entries] at he
    unfold new_history_rows at he
    have h1 : max_id hist + 1 ≤ e.id := assign_ids_id_ge _ _ e he
    have h2 : x.id ≤ max_id hist := le_max_id hist x hx
    omega
  · intro x hx
    rw [compute_core_combined] at hx
    unfold combined_history_of at hx
    have hm := mem_of_mem_dedup_by_key entry_key _ x hx
    exact List.mem_append.mp hm

/-- Witness for C5 at a concrete run: one surviving record over a
one-row ledger with maximum id 1 gets id 2, larger than the existing
id. -/
theorem surrogate_id_assignment_witness :
    ((⟨2, "OB-1", "B42", 10, 17⟩ : LedgerEntry) ∈
      (compute_core "f" "t" [sampleRecord] [sampleEntry] 10).new_entries) ∧
    (sampleEntry ∈ [sampleEntry]) ∧
    sampleEntry.id < (⟨2, "OB-1", "B42", 10, 17⟩ : LedgerEntry).id := by
  refine ⟨by decide, by decide, ?_⟩
  exact (surrogate_id_assignment "f" "t" [sampleRecord] [sampleEntry] 10).2.1
    ⟨2, "OB-1", "B42", 10, 17⟩ (by decide) sampleEntry (by decide)

/-- C6: when the pre-existing ledger has pairwise-distinct
(`inin_outbound_id`, `borrower_id`, `selected_at`) keys, the updated
ledger is the pre-existing rows unchanged and in order followed by the
new rows, and its keys stay pairwise distinct. -/
theorem ledger_key_uniqueness (src ts : String) (records : List InputRecord)
    (hist : List LedgerEntry) (today : Date)
    (hh : (hist.map entry_key).Nodup) :
    (compute_core src ts records hist today).combined_history =
      hist ++ (compute_core src ts records hist today).new_entries ∧
    (((compute_core src ts records hist today).combined_history.map entry_key).Nodup) := by
  have hn : ((compute_core src ts records hist today).new_entries.map entry_key).Nodup := by
    rw [compute_core_new_entries]
    exact new_history_rows_keys_nodup _ _ _
  have hd : ∀ k ∈ (compute_core src ts records hist today).new_entries.map entry_key,
      k ∉ hist.map entry_key := by
    rw [compute_core_new_entries]
    intro k hk
    exact new_history_rows_keys_disjoint _ _ _ k hk
  have hcomb : (compute_core src ts records hist today).combined_history =
      hist ++ (compute_core src ts records hist today).new_entries := by
    rw [compute_core_combined]
    exact combined_history_eq_append _ _ hh hn hd
  refine ⟨hcomb, ?_⟩
  rw [hcomb, List.map_append, List.nodup_append]
  exact ⟨hh, hn, fun a ha hb => hd a hb ha⟩

/-- Witness for C6 at a concrete run. -/
theorem ledger_key_uniqueness_witness :
    (([sampleEntry].map entry_key).Nodup) ∧
    ((compute_core "f" "t" [sampleRecord] [sampleEntry] 10).combined_history =
      [sampleEntry] ++ (compute_core "f" "t" [sampleRecord] [sampleEntry] 10).new_entries) :=
  ⟨by decide, (ledger_key_uniqueness "f" "t" [sampleRecord] [sampleEntry] 10 (by decide)).1⟩

/-- Enlarging the cooldown set can only lose selections: a record
selected against the larger set is selected against the smaller one
(the other three predicates do not depend on the set). -/
theorem eval_record_selected_mono (src ts : String) (today : Date) (r : InputRecord)
    (blocked blocked2 : List String) (hsub : ∀ b, b ∈ blocked → b ∈ blocked2)
    (h : (eval_record src ts blocked2 today r).is_selected_final = true) :
    (eval_record src ts blocked today r).is_selected_final = true := by
  rw [eval_record_selected] at h ⊢
  simp only [Bool.and_eq_true] at h ⊢
  obtain ⟨⟨⟨hc, hr⟩, hw⟩, hp⟩ := h
  refine ⟨⟨⟨?_, ?_⟩, ?_⟩, ?_⟩
  · rw [eval_record_cooldown] at hc ⊢
    simp only [Bool.not_eq_true', decide_eq_false_iff_not] at hc ⊢
    exact fun hmem => hc (hsub _ hmem)
  · rw [eval_record_result] at hr ⊢
    exact hr
  · rw [eval_record_wrapup] at hw ⊢
    exact hw
  · rw [eval_record_phone] at hp ⊢
    exact hp

/-- Core of the idempotence argument: re-running the pipeline against
the appended ledger of a first run produces no new history rows, because
every candidate key of the second run already exists in that ledger. -/
theorem second_run_new_rows_nil (src ts : String) (records : List InputRecord)
    (hist : List LedgerEntry) (today : Date) :
    new_history_rows
      ((records.map (eval_record src ts
        (blocked_borrowers
          (hist ++ new_history_rows
            ((records.map (eval_record src ts (blocked_borrowers hist today) today)).filter
              (·.is_selected_final)) hist today) today) today)).filter
        (·.is_selected_final))
      (hist ++ new_history_rows
        ((records.map (eval_record src ts (blocked_borrowers hist today) today)).filter
          (·.is_selected_final)) hist today)
      today = [] := by
  set nw1 := new_history_rows
    ((records.map (eval_record src ts (blocked_borrowers hist today) today)).filter
      (·.is_selected_final)) hist today with hnw1
  set hist2 := hist ++ nw1 with hhist2
  set B1 := blocked_borrowers hist today with hB1
  set B2 := blocked_borrowers hist2 today with hB2
  set sel1 := (records.map (eval_record src ts B1 today)).filter (·.is_selected_final)
    with hsel1
  set sel2 := (records.map (eval_record src ts B2 today)).filter (·.is_selected_final)
    with hsel2
  have hsub : ∀ b, b ∈ B1 → b ∈ B2 := by
    intro b hb
    rw [hB2, hhist2, blocked_borrowers_append]
    rw [hB1] at hb
    exact List.mem_append_left _ hb
  have hkey : ∀ c ∈ candidate_rows sel2 today, cand_key c ∈ hist2.map entry_key := by
    intro c hc
    unfold candidate_rows at hc
    rcases List.mem_map.mp hc with ⟨o, ho, rfl⟩
    rw [hsel2] at ho
    rcases List.mem_filter.mp ho with ⟨homem, hosel⟩
    rcases List.mem_map.mp homem with ⟨r, hr, rfl⟩
    have hsel1r : (eval_record src ts B1 today r).is_selected_final = true :=
      eval_record_selected_mono src ts today r B1 B2 hsub hosel
    have hc1 : (⟨py_strip (eval_record src ts B1 today r).inin_outbound_id,
        py_strip (eval_record src ts B1 today r).borrower_id, today, today + 7⟩ : CandRow)
        ∈ candidate_rows sel1 today := by
      unfold candidate_rows
      refine List.mem_map_of_mem _ ?_
      rw [hsel1]
      exact List.mem_filter.mpr ⟨List.mem_map_of_mem _ hr, hsel1r⟩
    have hkeq : cand_key (⟨py_strip (eval_record src ts B2 today r).inin_outbound_id,
        py_strip (eval_record src ts B2 today r).borrower_id, today, today + 7⟩ : CandRow) =
        cand_key (⟨py_strip (eval_record src ts B1 today r).inin_outbound_id,
        py_strip (eval_record src ts B1 today r).borrower_id, today, today + 7⟩ : CandRow) := by
      simp only [cand_key, eval_record_outbound, eval_record_borrower]
    rw [hkeq]
    by_cases hmem : cand_key (⟨py_strip (eval_record src ts B1 today r).inin_outbound_id,
        py_strip (eval_record src ts B1 today r).borrower_id, today, today + 7⟩ : CandRow) ∈
        hist.map entry_key
    · rw [hhist2, List.map_append]
      exact List.mem_append_left _ hmem
    · have hkc : cand_key (⟨py_strip (eval_record src ts B1 today r).inin_outbound_id,
          py_strip (eval_record src ts B1 today r).borrower_id, today, today + 7⟩ : CandRow) ∈
          (candidate_rows sel1 today).map cand_key :=
        List.mem_map_of_mem _ hc1
      have hkd := (mem_keys_dedup_by_key cand_key (candidate_rows sel1 today) _).mpr hkc
      rcases List.mem_map.mp hkd with ⟨d, hd, hdk⟩
      have hdf : d ∈ (dedup_by_key cand_key (candidate_rows sel1 today)).filter
          (fun c => !decide (cand_key c ∈ hist.map entry_key)) := by
        refine List.mem_filter.mpr ⟨hd, ?_⟩
        simp [hdk, hmem]
      have hnk : cand_key d ∈ nw1.map entry_key := by
        rw [hnw1]
        unfold new_history_rows
        rw [assign_ids_map_key]
        exact List.mem_map_of_mem _ hdf
      rw [hhist2, List.map_append]
      refine List.mem_append_right _ ?_
      rw [← hdk]
      exact hnk
  have hsurv : (dedup_by_key cand_key (candidate_rows sel2 today)).filter
      (fun c => !decide (cand_key c ∈ hist2.map entry_key)) = [] := by
    rw [List.filter_eq_nil_iff]
    intro c hcd
    have hcc := mem_of_mem_dedup_by_key cand_key _ c hcd
    have hk := hkey c hcc
    simp [hk]
  show assign_ids (max_id hist2 + 1)
    ((dedup_by_key cand_key (candidate_rows sel2 today)).filter
      (fun c => !decide (cand_key c ∈ hist2.map entry_key))) = []
  rw [hsurv]
  rfl

/-- C2 (amended): when the starting ledger has pairwise-distinct keys,
re-running the pipeline with the same records against the first run's
updated ledger creates no new rows, reports a new-entries count of zero,
and returns the first run's ledger unchanged. -/
theorem reconciler_idempotent_nodup (src ts : String) (records : List InputRecord)
    (hist : List LedgerEntry) (today : Date)
    (hh : (hist.map entry_key).Nodup) :
    (compute_core src ts records
      (compute_core src ts records hist today).combined_history today).new_entries = [] ∧
    (compute_core src ts records
      (compute_core src ts records hist today).combined_history
      today).metrics.nuevos_en_historico = 0 ∧
    (compute_core src ts records
      (compute_core src ts records hist today).combined_history today).combined_history =
      (compute_core src ts records hist today).combined_history := by
  have hn : ((compute_core src ts records hist today).new_entries.map entry_key).Nodup := by
    rw [compute_core_new_entries]
    exact new_history_rows_keys_nodup _ _ _
  have hd : ∀ k ∈ (compute_core src ts records hist today).new_entries.map entry_key,
      k ∉ hist.map entry_key := by
    rw [compute_core_new_entries]
    intro k hk
    exact new_history_rows_keys_disjoint _ _ _ k hk
  have hcomb1 : (compute_core src ts records hist today).combined_history =
      hist ++ (compute_core src ts records hist today).new_entries := by
    rw [compute_core_combined]
    exact combined_history_eq_append _ _ hh hn hd
  have hh2 : ((hist ++ (compute_core src ts records hist today).new_entries).map
      entry_key).Nodup := by
    rw [List.map_append, List.nodup_append]
    exact ⟨hh, hn, fun a ha hb => hd a hb ha⟩
  have hzero : (compute_core src ts records
      (compute_core src ts records hist today).combined_history today).new_entries = [] := by
    rw [compute_core_new_entries, hcomb1, compute_core_new_entries]
    exact second_run_new_rows_nil src ts records hist today
  refine ⟨hzero, ?_, ?_⟩
  · show (compute_core src ts records
      (compute_core src ts records hist today).combined_history today).new_entries.length = 0
    rw [hzero]
    rfl
  · rw [compute_core_combined, hzero]
    unfold combined_history_of
    rw [List.append_nil, hcomb1]
    exact dedup_by_key_eq_self entry_key _ hh2

/-- Witness for the amended C2 at a concrete run. -/
theorem reconciler_idempotent_nodup_witness :
    (([sampleEntry].map entry_key).Nodup) ∧
    (compute_core "f" "t" [sampleRecord]
      (compute_core "f" "t" [sampleRecord] [sampleEntry] 10).combined_history
      10).metrics.nuevos_en_historico = 0 :=
  ⟨by decide,
    (reconciler_idempotent_nodup "f" "t" [sampleRecord] [sampleEntry] 10 (by decide)).2.1⟩

/-- Starting ledger with a duplicated key (same key, different
`allowed_again_at`): the final dedup of run one drops the second copy,
un-blocking the borrower for run two. -/
def dupEntryA : LedgerEntry :=
  { id := 1, inin_outbound_id := "A", borrower_id := "B", selected_at := 0,
    allowed_again_at := 1 }

/-- Second copy of the duplicated key, still inside cooldown at day 50. -/
def dupEntryB : LedgerEntry :=
  { id := 2, inin_outbound_id := "A", borrower_id := "B", selected_at := 0,
    allowed_again_at := 100 }

/-- Record of borrower `B` passing every predicate except (in run one)
cooldown. -/
def cexRecord : InputRecord :=
  { inin_outbound_id := "A", borrower_id := "B", full_name := "John",
    phone := "5512345678", last_result := "", last_wrapup := "" }

/-- Counterexample to C2 as stated (for arbitrary starting ledgers):
with a duplicate-keyed starting ledger the first run creates no rows,
yet the second run against the produced ledger creates one new row and
reports a new-entries count of one, not zero. -/
theorem reconciler_idempotent_counterexample :
    (compute_core "f" "t" [cexRecord] [dupEntryA, dupEntryB] 50).metrics.nuevos_en_historico
        = 0 ∧
    (compute_core "f" "t" [cexRecord]
      (compute_core "f" "t" [cexRecord] [dupEntryA, dupEntryB] 50).combined_history
      50).metrics.nuevos_en_historico = 1 := by
  constructor
  · decide
  · decide

/-- A supplied ledger containing any unparseable date fails the load
with the fixed validation message. -/
theorem load_history_some_invalid (rows : List RawHistRow)
    (hbad : 0 < rows.countP (fun r => r.selected_at.isNone) ∨
      0 < rows.countP (fun r => r.allowed_again_at.isNone)) :
    load_history (some rows) =
      .error "El historico contiene fechas invalidas en selected_at o allowed_again_at." := by
  have hcond : (decide (rows.countP (fun r => r.selected_at.isNone) > 0) ||
      decide (rows.countP (fun r => r.allowed_again_at.isNone) > 0)) = true := by
    rcases hbad with h | h <;> simp [h]
  simp [load_history, hcond]
  intro h1 h2
  exfalso
  rcases hbad with h | h
  · obtain ⟨a, ha, hp⟩ := List.countP_pos_iff.mp h
    exact h1 a ha (Option.isNone_iff_eq_none.mp (by simpa using hp))
  · obtain ⟨a, ha, hp⟩ := List.countP_pos_iff.mp h
    exact h2 a ha (Option.isNone_iff_eq_none.mp (by simpa using hp))

/-- C8 (amended): with no ledger file the run proceeds on an empty
ledger with zero entries and no error; with a supplied ledger in which
any date cell failed to parse, the load fails (rows are counted, never
silently dropped, though the fixed error message does not carry the
count) and the run yields no artifacts. -/
theorem ledger_loader_contract (src ts : String) (records : List InputRecord)
    (today : Date) (rows : List RawHistRow)
    (hbad : 0 < rows.countP (fun r => r.selected_at.isNone) ∨
      0 < rows.countP (fun r => r.allowed_again_at.isNone)) :
    compute_outputs src ts records none today =
      .ok (compute_core src ts records [] today) ∧
    load_history none = .ok [] ∧
    (∃ e, compute_outputs src ts records (some rows) today = Except.error e) := by
  refine ⟨rfl, rfl, ?_⟩
  refine ⟨"El historico contiene fechas invalidas en selected_at o allowed_again_at.", ?_⟩
  unfold compute_outputs
  rw [load_history_some_invalid rows hbad]

/-- One raw ledger row whose `selected_at` cell failed to parse. -/
def badRow : RawHistRow :=
  { id := some 1, inin_outbound_id := "A", borrower_id := "B",
    selected_at := none, allowed_again_at := some 5 }

/-- Witness for the amended C8 at a concrete invalid ledger. -/
theorem ledger_loader_contract_witness :
    (0 < [badRow].countP (fun r => r.selected_at.isNone) ∨
      0 < [badRow].countP (fun r => r.allowed_again_at.isNone)) ∧
    (∃ e, compute_outputs "f" "t" [] (some [badRow]) 0 = Except.error e) :=
  ⟨Or.inl (by decide),
    (ledger_loader_contract "f" "t" [] 0 [badRow] (Or.inl (by decide))).2.2⟩

/-- Counterexample to C8 as stated: ledgers with one and with two
invalid rows produce the very same error value, so the error does not
report the count of invalid rows. -/
theorem ledger_loader_counterexample :
    [badRow].countP (fun r => r.selected_at.isNone) = 1 ∧
    [badRow, badRow].countP (fun r => r.selected_at.isNone) = 2 ∧
    load_history (some [badRow]) = load_history (some [badRow, badRow]) ∧
    (∃ e, load_history (some [badRow]) = Except.error e) := by
  refine ⟨by decide, by decide, rfl, ⟨_, rfl⟩⟩
